import Mathlib

/-!
Shallow embedding of `android/app/src/main/cpp/edge_processor.cpp`.

The file has two JNI entry points:

* `Java_com_pdfsmarttools_scan_EdgeProcessor_detectDocumentContour` — loads an
  image, runs OpenCV `Canny`/`findContours` to obtain a list of integer-pixel
  contours, then (lines 33–69) filters contours by area, simplifies each with
  `approxPolyDP`, keeps the 4-vertex simplification of largest area, orders its
  corners and returns them as 8 floats `[tl.x, tl.y, tr.x, tr.y, br.x, br.y,
  bl.x, bl.y]`.
* `Java_com_pdfsmarttools_scan_EdgeProcessor_enhanceAndWarp` — (lines 85–121)
  validates the polygon length, infers output dimensions from corner
  distances, warps, and binarizes with `adaptiveThreshold`.

The embedding models the logic that belongs to the repository exactly.  The OpenCV library
primitives that produce the inputs of that logic are treated as parameters or
modelled by their documented mathematics:

* the contour list produced by `findContours` is the `contours` argument
  (integer pixel coordinates, as `cv::Point` is `Point2i`);
* `approxPolyDP` (Douglas–Peucker simplification, a library routine) is the
  function parameter `approxPoly`; the claims about the selection loop hold
  for every simplifier;
* `cv::contourArea` is the absolute shoelace (Green) area it is documented to
  compute; the `fabs` the code wraps around it is kept;
* machine floating point is modelled by exact arithmetic: coordinates and
  intensities are `ℚ`, the `double` results of `hypot` are the corresponding
  real square roots, and the C cast `(int)` on a nonnegative `double` is
  truncation, i.e. the floor of the square root (`intSqrt` below, related to
  `Real.sqrt` by `intSqrt_eq_floor_sqrt`).
-/

namespace EdgeProcessor

/-- cv::Point (= Point2i): integer pixel coordinates, as produced by
`findContours`. -/
structure Point where
  x : ℤ
  y : ℤ
deriving DecidableEq, Repr, Inhabited

/-- One term of the shoelace sum: the cross product `p.x * q.y - q.x * p.y`. -/
def cross (p q : Point) : ℤ :=
  p.x * q.y - q.x * p.y

/-- Shoelace (Green) sum of a closed polygon: the signed double area. -/
def shoelace (c : List Point) : ℤ :=
  match c with
  | [] => 0
  | p :: ps => ((p :: ps).zip (ps ++ [p])).foldl (fun a uv => a + cross uv.1 uv.2) 0

/-- cv::contourArea with the default `oriented = false`: the absolute value of
half the shoelace sum. -/
def contourArea (c : List Point) : ℚ :=
  (((shoelace c).natAbs : ℤ) : ℚ) / 2

/-- One iteration of the selection loop (edge_processor.cpp lines 36–45):
skip contours of area below 1000; simplify the rest with `approxPoly`; a
4-vertex simplification whose absolute area beats the running maximum becomes
the new best candidate.  The accumulator is the pair `(maxArea, best)`. -/
def selectStep (approxPoly : List Point → List Point) (acc : ℚ × List Point)
    (c : List Point) : ℚ × List Point :=
  if contourArea c < 1000 then acc
  else if (approxPoly c).length = 4 ∧ acc.1 < |contourArea (approxPoly c)| then
    (|contourArea (approxPoly c)|, approxPoly c)
  else acc

/-- The `best` vector after the whole selection loop, starting from
`maxArea = 0` and an empty `best` (edge_processor.cpp lines 33–45). -/
def findBestQuad (approxPoly : List Point → List Point)
    (contours : List (List Point)) : List Point :=
  (contours.foldl (selectStep approxPoly) ((0 : ℚ), ([] : List Point))).2

/-- The comparator passed to `std::sort` at line 54: order by the `y`
coordinate.  (`std::sort` is not stable, so the order of `y`-ties is
unspecified in the source; any `y`-sorted permutation is a faithful model and
the theorems below do not depend on the tie order.) -/
def byY (a b : Point) : Prop :=
  a.y ≤ b.y

instance : DecidableRel byY :=
  fun a b => inferInstanceAs (Decidable (a.y ≤ b.y))

instance : IsTotal Point byY :=
  ⟨fun a b => le_total a.y b.y⟩

instance : IsTrans Point byY :=
  ⟨fun _ _ _ hab hbc => le_trans hab hbc⟩

/-- Corner ordering (edge_processor.cpp lines 52–59): sort the four points by
`y`; of the first two the one with smaller `x` is TL and the other TR; of the
last two the one with smaller `x` is BL and the other BR.  Returns
`(tl, tr, br, bl)`; `none` when the input does not have exactly 4 points
(unreachable in the source, which checks `best.size() == 4` first). -/
def orderCorners (ps : List Point) : Option (Point × Point × Point × Point) :=
  match List.insertionSort byY ps with
  | [p0, p1, p2, p3] =>
    some (if p0.x < p1.x then p0 else p1,
          if p0.x < p1.x then p1 else p0,
          if p2.x < p3.x then p3 else p2,
          if p2.x < p3.x then p2 else p3)
  | _ => none

/-- detectDocumentContour from the contour list on (edge_processor.cpp lines
33–69): select the best 4-vertex candidate, return `none` ( = the `nullptr`
"no quad found" result) unless it has exactly 4 points, then order the corners
and emit the 8 coordinates `[tl.x, tl.y, tr.x, tr.y, br.x, br.y, bl.x, bl.y]`
as floats (integer pixel values cast to float, modelled as `ℚ`). -/
def detectDocumentContour (approxPoly : List Point → List Point)
    (contours : List (List Point)) : Option (List ℚ) :=
  let best := findBestQuad approxPoly contours
  if best.length ≠ 4 then none
  else
    match orderCorners best with
    | some (tl, tr, br, bl) =>
      some [(tl.x : ℚ), (tl.y : ℚ), (tr.x : ℚ), (tr.y : ℚ),
            (br.x : ℚ), (br.y : ℚ), (bl.x : ℚ), (bl.y : ℚ)]
    | none => none

/-- cv::Point2f: the floating-point corner coordinates received by
`enhanceAndWarp`, modelled exactly as `ℚ`. -/
structure Point2f where
  x : ℚ
  y : ℚ
deriving DecidableEq, Repr, Inhabited

/-- Squared Euclidean distance between two points; `hypot dx dy` in the source
is `Real.sqrt` of this. -/
def dist2 (p q : Point2f) : ℚ :=
  (p.x - q.x) ^ 2 + (p.y - q.y) ^ 2

/-- The C cast `(int)` applied to the nonnegative `double` `sqrt q`:
truncation toward zero, i.e. `⌊Real.sqrt q⌋`.  Computably this is `Nat.sqrt`
of `⌊q⌋` (theorem `intSqrt_eq_floor_sqrt` below). -/
def intSqrt (q : ℚ) : ℕ :=
  Nat.sqrt (⌊q⌋).toNat

/-- Result of the geometry part of `enhanceAndWarp`: either the early rejection of a
too-short polygon array (the `len < 8` branch returning `JNI_FALSE` at lines
86–91), or the inferred output pixel size `(width, height)` passed to
`warpPerspective` at line 116. -/
inductive WarpResult where
  | invalidPolygon : WarpResult
  | ok : ℕ → ℕ → WarpResult
deriving DecidableEq, Repr

/-- The i-th corner read out of the flat float array at line 97:
`src[i] = Point2f(pts[2 i], pts[2 i + 1])`.  (`List.getD` never falls back to
its default when the length check has passed.) -/
def getPt (poly : List ℚ) (i : ℕ) : Point2f :=
  ⟨poly.getD (2 * i) 0, poly.getD (2 * i + 1) 0⟩

/-- Geometry of `enhanceAndWarp` (edge_processor.cpp lines 85–116): reject a
polygon array with fewer than 8 entries; otherwise read the four corners
`src[0..3] = TL, TR, BR, BL` from the first 8 entries and compute
`maxWidth  = max (hypot (BR - BL)) (hypot (TR - TL))`,
`maxHeight = max (hypot (TR - BR)) (hypot (TL - BL))`,
returning the output size `((int) maxWidth, (int) maxHeight)`.
Since `max (sqrt a) (sqrt b) = sqrt (max a b)`, the truncated square root of
the maximal squared distance is the exact value of the expression
`(int) max(hypot …, hypot …)` in the source. -/
def enhanceAndWarp (poly : List ℚ) : WarpResult :=
  if poly.length < 8 then .invalidPolygon
  else
    let tl := getPt poly 0
    let tr := getPt poly 1
    let br := getPt poly 2
    let bl := getPt poly 3
    .ok (intSqrt (max (dist2 br bl) (dist2 tr tl)))
        (intSqrt (max (dist2 tr br) (dist2 tl bl)))

/-- Per-pixel semantics of the call
`adaptiveThreshold(…, 255, ADAPTIVE_THRESH_GAUSSIAN_C, THRESH_BINARY, 15, 10)`
at line 121, following the documented OpenCV definition: the threshold at a
pixel is the `w`-weighted sum of its 15×15 neighborhood minus `C = 10`. The
Gaussian kernel itself is computed inside the library
(`getGaussianKernel(15, σ)`), so the weights are a parameter `w` here; the
claims hold for every choice of weights. -/
def localMean (w : Fin 15 → Fin 15 → ℚ) (pix : ℤ → ℤ → ℚ) (x y : ℤ) : ℚ :=
  ∑ i : Fin 15, ∑ j : Fin 15,
    w i j * pix (x + (i : ℤ) - 7) (y + (j : ℤ) - 7)

/-- THRESH_BINARY with maxValue 255: an output pixel is 255 when the source
intensity strictly exceeds the local threshold `localMean - 10`, else 0. -/
def adaptiveThresholdPix (w : Fin 15 → Fin 15 → ℚ) (pix : ℤ → ℤ → ℚ)
    (x y : ℤ) : ℚ :=
  if localMean w pix x y - 10 < pix x y then 255 else 0

/-! ## Helper lemmas -/

lemma dist2_nonneg (p q : Point2f) : 0 ≤ dist2 p q := by
  unfold dist2; positivity

/-- The truncated integer square root `intSqrt` computes exactly the floor of
the real square root, i.e. the C cast `(int) sqrt(q)` for `0 ≤ q`. -/
lemma intSqrt_eq_floor_sqrt (q : ℚ) (hq : 0 ≤ q) :
    ((intSqrt q : ℕ) : ℤ) = ⌊Real.sqrt (q : ℝ)⌋ := by
  have hfl : (0 : ℤ) ≤ ⌊q⌋ := Int.floor_nonneg.mpr hq
  have hn : ((⌊q⌋.toNat : ℤ)) = ⌊q⌋ := Int.toNat_of_nonneg hfl
  have hle : ((⌊q⌋.toNat : ℝ)) ≤ (q : ℝ) := by
    have h1 : ((⌊q⌋ : ℚ)) ≤ q := Int.floor_le q
    have h2 : ((⌊q⌋ : ℝ)) ≤ (q : ℝ) := by exact_mod_cast h1
    have h3 : ((⌊q⌋.toNat : ℝ)) = ((⌊q⌋ : ℝ)) := by exact_mod_cast hn
    rw [h3]; exact h2
  have hlt : (q : ℝ) < (⌊q⌋.toNat : ℝ) + 1 := by
    have h1 : q < ((⌊q⌋ : ℚ)) + 1 := Int.lt_floor_add_one q
    have h2 : (q : ℝ) < ((⌊q⌋ : ℝ)) + 1 := by exact_mod_cast h1
    have h3 : ((⌊q⌋.toNat : ℝ)) = ((⌊q⌋ : ℝ)) := by exact_mod_cast hn
    rw [h3]; exact h2
  symm
  rw [Int.floor_eq_iff]
  constructor
  · calc ((intSqrt q : ℤ) : ℝ) = ((Nat.sqrt ⌊q⌋.toNat : ℕ) : ℝ) := by norm_cast
    _ ≤ Real.sqrt ((⌊q⌋.toNat : ℕ) : ℝ) := Real.nat_sqrt_le_real_sqrt
    _ ≤ Real.sqrt (q : ℝ) := Real.sqrt_le_sqrt hle
  · have hpos : (0 : ℝ) < ((intSqrt q : ℤ) : ℝ) + 1 := by positivity
    refine (Real.sqrt_lt' hpos).mpr ?_
    have h3 : (⌊q⌋.toNat : ℕ) < (Nat.sqrt ⌊q⌋.toNat + 1) ^ 2 := Nat.lt_succ_sqrt' _
    calc (q : ℝ) < (⌊q⌋.toNat : ℝ) + 1 := hlt
    _ ≤ (((Nat.sqrt ⌊q⌋.toNat + 1 : ℕ) : ℝ)) ^ 2 := by exact_mod_cast h3
    _ = (((intSqrt q : ℤ) : ℝ) + 1) ^ 2 := by norm_cast

/-- Real square root commutes with `max` (monotonicity). -/
lemma sqrt_max_comm (a b : ℝ) :
    Real.sqrt (max a b) = max (Real.sqrt a) (Real.sqrt b) :=
  Monotone.map_max (fun _ _ h => Real.sqrt_le_sqrt h)

/-- The source expression `(int) max(hypot …, hypot …)` on squared distances `a`, `b`:
`intSqrt (max a b)` is the floor of the larger of the two real distances. -/
lemma intSqrt_max_eq (a b : ℚ) (ha : 0 ≤ a) :
    intSqrt (max a b) =
      (⌊max (Real.sqrt (a : ℝ)) (Real.sqrt (b : ℝ))⌋).toNat := by
  have h1 : ((intSqrt (max a b) : ℕ) : ℤ) = ⌊Real.sqrt ((max a b : ℚ) : ℝ)⌋ :=
    intSqrt_eq_floor_sqrt _ (le_max_of_le_left ha)
  have hcast : ((max a b : ℚ) : ℝ) = max (a : ℝ) (b : ℝ) := Rat.cast_max a b
  rw [hcast, sqrt_max_comm] at h1
  rw [← h1, Int.toNat_natCast]

/-! ## C1: degenerate quadrilaterals (all corners coincident) -/

/-- Claim C1 (status: code_bug).  The spec requires rectify to fail with an
explicit Degenerate result whenever the inferred output width or height is not
positive, and never to produce a zero-sized image.  The code has no such
check: for a polygon whose four corners coincide (eight zeros), every
pairwise distance is 0, so `(int) maxWidth = (int) maxHeight = 0` and the
geometry proceeds to an output size of 0 × 0, which is handed to
`warpPerspective` at line 116 — a zero-sized output, with no degeneracy
failure anywhere in the function. -/
theorem coincident_corners_zero_size :
    enhanceAndWarp (List.replicate 8 0) = .ok 0 0 := by
  norm_num [enhanceAndWarp, getPt, dist2, intSqrt]

/-! ## C2: dimension inference and output size -/

/-- Claim C2 counterexample.  For the quadrilateral TL=(0,0), TR=(1,1),
BR=(1,2), BL=(0,1), the inferred width is `max (dist BR BL) (dist TR TL)
= √2`, whose ceiling is 2; the output width computed by the code is `(int) √2 = 1`.  So the
output size is not `⌈width⌉ × ⌈height⌉` as claimed. -/
theorem warp_size_not_ceiling_cex :
    enhanceAndWarp [0, 0, 1, 1, 1, 2, 0, 1] = .ok 1 1 ∧
      (⌈max (Real.sqrt ((dist2 (getPt [0, 0, 1, 1, 1, 2, 0, 1] 2)
                               (getPt [0, 0, 1, 1, 1, 2, 0, 1] 3) : ℚ) : ℝ))
            (Real.sqrt ((dist2 (getPt [0, 0, 1, 1, 1, 2, 0, 1] 1)
                               (getPt [0, 0, 1, 1, 1, 2, 0, 1] 0) : ℚ) : ℝ))⌉
        : ℤ) ≠ 1 := by
  constructor
  · norm_num [enhanceAndWarp, getPt, dist2, intSqrt]
    simp
    norm_num
  · have hd : ((dist2 (getPt [0, 0, 1, 1, 1, 2, 0, 1] 2)
        (getPt [0, 0, 1, 1, 1, 2, 0, 1] 3) : ℚ) : ℝ) = 2 := by
      norm_num [dist2, getPt]
    have hd' : ((dist2 (getPt [0, 0, 1, 1, 1, 2, 0, 1] 1)
        (getPt [0, 0, 1, 1, 1, 2, 0, 1] 0) : ℚ) : ℝ) = 2 := by
      norm_num [dist2, getPt]
    rw [hd, hd', max_self]
    have h1 : (1 : ℝ) < Real.sqrt 2 :=
      (Real.lt_sqrt (by norm_num)).mpr (by norm_num)
    have h2 : Real.sqrt 2 < 2 :=
      (Real.sqrt_lt' (by norm_num)).mpr (by norm_num)
    have : ⌈Real.sqrt 2⌉ = 2 := by
      rw [Int.ceil_eq_iff]
      constructor
      · push_cast; linarith
      · push_cast; linarith
    omega

/-- Claim C2 as amended: for every polygon accepted by the length check, the
output size is the larger of dist(BR,BL) and dist(TR,TL) by the larger of
dist(TR,BR) and dist(TL,BL), each TRUNCATED toward zero (the C cast `(int)`),
i.e. the floor — not the ceiling — of the inferred real dimensions. -/
theorem warp_size_eq_floor_of_len (poly : List ℚ) (h : 8 ≤ poly.length) :
    enhanceAndWarp poly =
      .ok (⌊max (Real.sqrt ((dist2 (getPt poly 2) (getPt poly 3) : ℚ) : ℝ))
               (Real.sqrt ((dist2 (getPt poly 1) (getPt poly 0) : ℚ) : ℝ))⌋).toNat
          (⌊max (Real.sqrt ((dist2 (getPt poly 1) (getPt poly 2) : ℚ) : ℝ))
               (Real.sqrt ((dist2 (getPt poly 0) (getPt poly 3) : ℚ) : ℝ))⌋).toNat := by
  unfold enhanceAndWarp
  rw [if_neg (by omega)]
  show WarpResult.ok
      (intSqrt (max (dist2 (getPt poly 2) (getPt poly 3))
                    (dist2 (getPt poly 1) (getPt poly 0))))
      (intSqrt (max (dist2 (getPt poly 1) (getPt poly 2))
                    (dist2 (getPt poly 0) (getPt poly 3)))) = _
  rw [intSqrt_max_eq _ _ (dist2_nonneg _ _), intSqrt_max_eq _ _ (dist2_nonneg _ _)]

/-- Witness for the amended C2 theorem at the axis-aligned rectangle
TL=(0,0), TR=(3,0), BR=(3,4), BL=(0,4). -/
theorem warp_size_eq_floor_wit :
    enhanceAndWarp [0, 0, 3, 0, 3, 4, 0, 4] =
      .ok (⌊max (Real.sqrt ((dist2 (getPt [0, 0, 3, 0, 3, 4, 0, 4] 2)
                                   (getPt [0, 0, 3, 0, 3, 4, 0, 4] 3) : ℚ) : ℝ))
               (Real.sqrt ((dist2 (getPt [0, 0, 3, 0, 3, 4, 0, 4] 1)
                                   (getPt [0, 0, 3, 0, 3, 4, 0, 4] 0) : ℚ) : ℝ))⌋).toNat
          (⌊max (Real.sqrt ((dist2 (getPt [0, 0, 3, 0, 3, 4, 0, 4] 1)
                                   (getPt [0, 0, 3, 0, 3, 4, 0, 4] 2) : ℚ) : ℝ))
               (Real.sqrt ((dist2 (getPt [0, 0, 3, 0, 3, 4, 0, 4] 0)
                                   (getPt [0, 0, 3, 0, 3, 4, 0, 4] 3) : ℚ) : ℝ))⌋).toNat :=
  warp_size_eq_floor_of_len [0, 0, 3, 0, 3, 4, 0, 4] (by norm_num)

/-! ## C3: polygon length validation -/

/-- Claim C3 counterexample.  A coordinate array with 10 values (5 points) is
not exactly 4 points, yet the call is not rejected: the code only checks
`len < 8` (line 86) and silently processes the first 8 values. -/
theorem warp_accepts_overlong_cex :
    enhanceAndWarp (List.replicate 10 0) = .ok 0 0 ∧
      (List.replicate 10 (0 : ℚ)).length ≠ 8 := by
  constructor
  · norm_num [enhanceAndWarp, getPt, dist2, intSqrt]
  · norm_num

/-- Claim C3 as amended: the call is rejected as an input-contract violation
exactly when the coordinate array has FEWER than 8 values; an array with 8 or
more values is processed using its first 8 values. -/
theorem warp_reject_iff_short (poly : List ℚ) :
    enhanceAndWarp poly = .invalidPolygon ↔ poly.length < 8 := by
  by_cases h : poly.length < 8
  · simp [enhanceAndWarp, h]
  · rw [enhanceAndWarp, if_neg h]
    exact iff_of_false (fun hEq => WarpResult.noConfusion hEq) h

/-! ## Selection-loop invariants (edge_processor.cpp lines 33–50) -/

lemma selectStep_fst_le (ap : List Point → List Point) (acc : ℚ × List Point)
    (c : List Point) : acc.1 ≤ (selectStep ap acc c).1 := by
  unfold selectStep
  by_cases h1 : contourArea c < 1000
  · rw [if_pos h1]
  · rw [if_neg h1]
    by_cases h2 : (ap c).length = 4 ∧ acc.1 < |contourArea (ap c)|
    · rw [if_pos h2]; exact le_of_lt h2.2
    · rw [if_neg h2]

lemma foldl_select_fst_le (ap : List Point → List Point)
    (l : List (List Point)) (acc : ℚ × List Point) :
    acc.1 ≤ (l.foldl (selectStep ap) acc).1 := by
  induction l generalizing acc with
  | nil => exact le_refl _
  | cons c t ih =>
    rw [List.foldl_cons]
    exact le_trans (selectStep_fst_le ap acc c) (ih _)

/-- Where the final accumulator of the selection loop comes from: either no
contour ever updated it, or the final `best` is the simplification of some
contour of the list that passed the area filter and the 4-vertex test, and
the final `maxArea` is the absolute area of that candidate. -/
lemma foldl_select_origin (ap : List Point → List Point)
    (l : List (List Point)) (acc : ℚ × List Point) :
    l.foldl (selectStep ap) acc = acc ∨
      ∃ c ∈ l, 1000 ≤ contourArea c ∧ (ap c).length = 4 ∧
        (l.foldl (selectStep ap) acc).2 = ap c ∧
        (l.foldl (selectStep ap) acc).1 = |contourArea (ap c)| := by
  induction l generalizing acc with
  | nil => exact Or.inl rfl
  | cons c t ih =>
    rw [List.foldl_cons]
    by_cases h1 : contourArea c < 1000
    · have hs : selectStep ap acc c = acc := by rw [selectStep, if_pos h1]
      rw [hs]
      rcases ih acc with h | ⟨c', hc', h⟩
      · exact Or.inl h
      · exact Or.inr ⟨c', List.mem_cons_of_mem _ hc', h⟩
    · by_cases h2 : (ap c).length = 4 ∧ acc.1 < |contourArea (ap c)|
      · have hs : selectStep ap acc c = (|contourArea (ap c)|, ap c) := by
          rw [selectStep, if_neg h1, if_pos h2]
        rw [hs]
        rcases ih (|contourArea (ap c)|, ap c) with h | ⟨c', hc', h⟩
        · refine Or.inr ⟨c, List.mem_cons_self _ _, le_of_not_lt h1, h2.1, ?_, ?_⟩
          · rw [h]
          · rw [h]
        · exact Or.inr ⟨c', List.mem_cons_of_mem _ hc', h⟩
      · have hs : selectStep ap acc c = acc := by
          rw [selectStep, if_neg h1, if_neg h2]
        rw [hs]
        rcases ih acc with h | ⟨c', hc', h⟩
        · exact Or.inl h
        · exact Or.inr ⟨c', List.mem_cons_of_mem _ hc', h⟩

/-- The final `maxArea` dominates the absolute area of every surviving
4-vertex candidate of the list. -/
lemma foldl_select_ge (ap : List Point → List Point)
    (l : List (List Point)) (acc : ℚ × List Point) (c : List Point)
    (hc : c ∈ l) (hA : 1000 ≤ contourArea c) (hL : (ap c).length = 4) :
    |contourArea (ap c)| ≤ (l.foldl (selectStep ap) acc).1 := by
  induction l generalizing acc with
  | nil => cases hc
  | cons d t ih =>
    rw [List.foldl_cons]
    rcases List.mem_cons.mp hc with rfl | hmem
    · refine le_trans ?_ (foldl_select_fst_le ap t _)
      have h1 : ¬ contourArea c < 1000 := not_lt.mpr hA
      by_cases h2 : (ap c).length = 4 ∧ acc.1 < |contourArea (ap c)|
      · rw [selectStep, if_neg h1, if_pos h2]
      · rw [selectStep, if_neg h1, if_neg h2]
        exact not_lt.mp fun hlt => h2 ⟨hL, hlt⟩
    · exact ih _ hmem

/-! ## C5: no surviving 4-vertex contour yields NotFound -/

/-- Claim C5 (status: confirmed).  If no contour of the edge map both passes
the 1000-area filter and simplifies to exactly 4 vertices — in particular
when the contour list is empty, as for a uniform blank image — the function
returns the absence value `none` (the `nullptr` "No quad found" result at
line 49).  The embedding is a total function, so no exception is involved. -/
theorem detect_no_survivor_none (ap : List Point → List Point)
    (contours : List (List Point))
    (h : ∀ c ∈ contours, contourArea c < 1000 ∨ (ap c).length ≠ 4) :
    detectDocumentContour ap contours = none := by
  rcases foldl_select_origin ap contours ((0 : ℚ), ([] : List Point)) with
    heq | ⟨c, hc, hA, hL, -, -⟩
  · unfold detectDocumentContour findBestQuad
    rw [heq]
    rfl
  · rcases h c hc with h' | h'
    · exact absurd hA (not_le.mpr h')
    · exact absurd hL h'

/-- Witness for C5: a single small square contour (area 1 < 1000). -/
theorem detect_no_survivor_none_wit :
    detectDocumentContour id [[⟨0, 0⟩, ⟨1, 0⟩, ⟨1, 1⟩, ⟨0, 1⟩]] = none :=
  detect_no_survivor_none id [[⟨0, 0⟩, ⟨1, 0⟩, ⟨1, 1⟩, ⟨0, 1⟩]] (by
    intro c hc
    simp only [List.mem_singleton] at hc
    subst hc
    left
    norm_num [contourArea, shoelace, cross])

/-! ## C6: contours below the area threshold are never selected -/

/-- Claim C6 (status: confirmed).  Whenever the function returns a
quadrilateral, the selected polygon is the simplification of some contour of
the list whose enclosed area is at least 1000: a contour with area below 1000
is skipped by the `continue` at line 38 before its simplification is even
computed, so it can never become the selected quadrilateral. -/
theorem detect_selects_large_contour (ap : List Point → List Point)
    (contours : List (List Point)) (coords : List ℚ)
    (h : detectDocumentContour ap contours = some coords) :
    ∃ c ∈ contours, 1000 ≤ contourArea c ∧ (ap c).length = 4 ∧
      findBestQuad ap contours = ap c := by
  rcases foldl_select_origin ap contours ((0 : ℚ), ([] : List Point)) with
    heq | ⟨c, hc, hA, hL, h2, -⟩
  · exfalso
    unfold detectDocumentContour findBestQuad at h
    rw [heq] at h
    simp at h
  · exact ⟨c, hc, hA, hL, h2⟩

/-! ## C7: the selected candidate has maximal area -/

/-- Claim C7 (status: confirmed).  Whenever the function returns a
quadrilateral, the absolute area of the selected polygon (`findBestQuad`) is
at least the absolute area of the simplification of every surviving contour
(area ≥ 1000, simplification with exactly 4 vertices): the loop keeps the
running maximum of `fabs(contourArea(approx))` at lines 41–44. -/
theorem detect_selects_max_area (ap : List Point → List Point)
    (contours : List (List Point)) (coords : List ℚ)
    (h : detectDocumentContour ap contours = some coords) :
    ∀ c ∈ contours, 1000 ≤ contourArea c → (ap c).length = 4 →
      |contourArea (ap c)| ≤ |contourArea (findBestQuad ap contours)| := by
  intro c hc hA hL
  rcases foldl_select_origin ap contours ((0 : ℚ), ([] : List Point)) with
    heq | ⟨c0, -, -, -, h2, h1⟩
  · exfalso
    unfold detectDocumentContour findBestQuad at h
    rw [heq] at h
    simp at h
  · have hge := foldl_select_ge ap contours ((0 : ℚ), ([] : List Point)) c hc hA hL
    unfold findBestQuad
    rw [h2, ← h1]
    exact hge

/-! ## Corner ordering (edge_processor.cpp lines 52–69) -/

/-- Full characterization of `orderCorners` on 4-point inputs: it succeeds,
its output is a permutation of the input, the top pair (TL, TR) is ordered by
`x`, the bottom pair (BL, BR) is ordered by `x`, and every `y` of the top pair
is at most every `y` of the bottom pair. -/
lemma orderCorners_spec (ps : List Point) (h : ps.length = 4) :
    ∃ tl tr br bl, orderCorners ps = some (tl, tr, br, bl) ∧
      [tl, tr, br, bl].Perm ps ∧
      tl.x ≤ tr.x ∧ bl.x ≤ br.x ∧
      tl.y ≤ bl.y ∧ tl.y ≤ br.y ∧ tr.y ≤ bl.y ∧ tr.y ≤ br.y := by
  have hlen : (List.insertionSort byY ps).length = 4 := by
    rw [List.length_insertionSort]; exact h
  have hsorted : List.Sorted byY (List.insertionSort byY ps) :=
    List.sorted_insertionSort byY ps
  have hperm : List.Perm (List.insertionSort byY ps) ps :=
    List.perm_insertionSort byY ps
  obtain ⟨p0, p1, p2, p3, hs⟩ :
      ∃ a b c d, List.insertionSort byY ps = [a, b, c, d] := by
    generalize List.insertionSort byY ps = l at hlen ⊢
    rcases l with - | ⟨a, - | ⟨b, - | ⟨c, - | ⟨d, - | ⟨e, t⟩⟩⟩⟩⟩
    · simp only [List.length_nil] at hlen; omega
    · simp only [List.length_cons, List.length_nil] at hlen; omega
    · simp only [List.length_cons, List.length_nil] at hlen; omega
    · simp only [List.length_cons, List.length_nil] at hlen; omega
    · exact ⟨a, b, c, d, rfl⟩
    · simp only [List.length_cons] at hlen; omega
  rw [hs] at hsorted hperm
  have h01 : p0.y ≤ p1.y := List.rel_of_sorted_cons hsorted p1 (by simp)
  have h02 : p0.y ≤ p2.y := List.rel_of_sorted_cons hsorted p2 (by simp)
  have h03 : p0.y ≤ p3.y := List.rel_of_sorted_cons hsorted p3 (by simp)
  have h12 : p1.y ≤ p2.y := List.rel_of_sorted_cons hsorted.of_cons p2 (by simp)
  have h13 : p1.y ≤ p3.y := List.rel_of_sorted_cons hsorted.of_cons p3 (by simp)
  have hoc : orderCorners ps =
      some (if p0.x < p1.x then p0 else p1,
            if p0.x < p1.x then p1 else p0,
            if p2.x < p3.x then p3 else p2,
            if p2.x < p3.x then p2 else p3) := by
    unfold orderCorners
    rw [hs]
  by_cases hx1 : p0.x < p1.x
  · by_cases hx2 : p2.x < p3.x
    · simp only [if_pos hx1, if_pos hx2] at hoc
      exact ⟨p0, p1, p3, p2, hoc,
        (((List.Perm.swap p2 p3 []).cons p1).cons p0).trans hperm,
        le_of_lt hx1, le_of_lt hx2, h02, h03, h12, h13⟩
    · simp only [if_pos hx1, if_neg hx2] at hoc
      exact ⟨p0, p1, p2, p3, hoc, hperm,
        le_of_lt hx1, not_lt.mp hx2, h03, h02, h13, h12⟩
  · by_cases hx2 : p2.x < p3.x
    · simp only [if_neg hx1, if_pos hx2] at hoc
      exact ⟨p1, p0, p3, p2, hoc,
        ((List.Perm.swap p0 p1 [p3, p2]).trans
          (((List.Perm.swap p2 p3 []).cons p1).cons p0)).trans hperm,
        not_lt.mp hx1, le_of_lt hx2, h12, h13, h02, h03⟩
    · simp only [if_neg hx1, if_neg hx2] at hoc
      exact ⟨p1, p0, p2, p3, hoc,
        (List.Perm.swap p0 p1 [p2, p3]).trans hperm,
        not_lt.mp hx1, not_lt.mp hx2, h13, h12, h03, h02⟩

/-- Unfolding lemma: when the selected candidate has 4 points and
`orderCorners` yields `(tl, tr, br, bl)`, the function returns the flat
coordinate list in TL, TR, BR, BL order. -/
lemma detect_eq_of_order (ap : List Point → List Point)
    (contours : List (List Point)) (tl tr br bl : Point)
    (h4 : (findBestQuad ap contours).length = 4)
    (hoc : orderCorners (findBestQuad ap contours) = some (tl, tr, br, bl)) :
    detectDocumentContour ap contours =
      some [(tl.x : ℚ), (tl.y : ℚ), (tr.x : ℚ), (tr.y : ℚ),
            (br.x : ℚ), (br.y : ℚ), (bl.x : ℚ), (bl.y : ℚ)] := by
  unfold detectDocumentContour
  show (if (findBestQuad ap contours).length ≠ 4 then none
        else match orderCorners (findBestQuad ap contours) with
          | some (tl, tr, br, bl) =>
            some [(tl.x : ℚ), (tl.y : ℚ), (tr.x : ℚ), (tr.y : ℚ),
                  (br.x : ℚ), (br.y : ℚ), (bl.x : ℚ), (bl.y : ℚ)]
          | none => none) = _
  rw [if_neg (not_not_intro h4), hoc]

/-- Unfolding lemma: when the selected candidate does not have 4 points the
function returns `none`. -/
lemma detect_none_of_len_ne (ap : List Point → List Point)
    (contours : List (List Point))
    (h4 : (findBestQuad ap contours).length ≠ 4) :
    detectDocumentContour ap contours = none := by
  unfold detectDocumentContour
  show (if (findBestQuad ap contours).length ≠ 4 then none
        else match orderCorners (findBestQuad ap contours) with
          | some (tl, tr, br, bl) =>
            some [(tl.x : ℚ), (tl.y : ℚ), (tr.x : ℚ), (tr.y : ℚ),
                  (br.x : ℚ), (br.y : ℚ), (bl.x : ℚ), (bl.y : ℚ)]
          | none => none) = _
  rw [if_pos h4]

/-! ## C4: corner labeling rule -/

/-- Claim C4 (status: confirmed).  Given exactly 4 points, the ordering step
returns `some (TL, TR, BR, BL)` where the four labels are a permutation of
the input, the top pair {TL, TR} consists of points whose vertical coordinate
is at most that of each of {BL, BR} (the two smallest after the ascending
`y`-sort), TL has the smaller horizontal coordinate of the top pair and BL
the smaller of the bottom pair; the emitted order is TL, TR, BR, BL
(see `detect_eq_of_order` for the flat output layout). -/
theorem corner_ordering_correct (ps : List Point) (h : ps.length = 4) :
    ∃ tl tr br bl, orderCorners ps = some (tl, tr, br, bl) ∧
      [tl, tr, br, bl].Perm ps ∧
      tl.x ≤ tr.x ∧ bl.x ≤ br.x ∧
      tl.y ≤ bl.y ∧ tl.y ≤ br.y ∧ tr.y ≤ bl.y ∧ tr.y ≤ br.y :=
  orderCorners_spec ps h

/-- Witness for C4 at the scenario corners of the spec: (100,120), (650,90),
(680,540), (80,560). -/
theorem corner_ordering_correct_wit :
    ∃ tl tr br bl,
      orderCorners [⟨100, 120⟩, ⟨650, 90⟩, ⟨680, 540⟩, ⟨80, 560⟩] =
        some (tl, tr, br, bl) ∧
      [tl, tr, br, bl].Perm [⟨100, 120⟩, ⟨650, 90⟩, ⟨680, 540⟩, ⟨80, 560⟩] ∧
      tl.x ≤ tr.x ∧ bl.x ≤ br.x ∧
      tl.y ≤ bl.y ∧ tl.y ≤ br.y ∧ tr.y ≤ bl.y ∧ tr.y ≤ br.y :=
  corner_ordering_correct [⟨100, 120⟩, ⟨650, 90⟩, ⟨680, 540⟩, ⟨80, 560⟩] rfl

/-! ## C9: ordering invariant of the returned coordinates -/

/-- Claim C9 (status: confirmed).  Whenever the function returns a flat
8-value coordinate list `[TL.x, TL.y, TR.x, TR.y, BR.x, BR.y, BL.x, BL.y]`,
it satisfies `TL.x ≤ TR.x`, `BL.x ≤ BR.x`, and
`max TL.y TR.y ≤ min BL.y BR.y`, for every input contour list and
simplifier. -/
theorem detect_output_ordering_invariant (ap : List Point → List Point)
    (contours : List (List Point)) (coords : List ℚ)
    (h : detectDocumentContour ap contours = some coords) :
    ∃ tlx tly trx trY brx brY blx blY,
      coords = [tlx, tly, trx, trY, brx, brY, blx, blY] ∧
      tlx ≤ trx ∧ blx ≤ brx ∧ max tly trY ≤ min blY brY := by
  by_cases h4 : (findBestQuad ap contours).length = 4
  · obtain ⟨tl, tr, br, bl, hoc, -, hxt, hxb, hy1, hy2, hy3, hy4⟩ :=
      orderCorners_spec _ h4
    rw [detect_eq_of_order ap contours tl tr br bl h4 hoc] at h
    have hc := Option.some.inj h
    refine ⟨(tl.x : ℚ), (tl.y : ℚ), (tr.x : ℚ), (tr.y : ℚ),
            (br.x : ℚ), (br.y : ℚ), (bl.x : ℚ), (bl.y : ℚ),
            hc.symm, ?_, ?_, ?_⟩
    · exact_mod_cast hxt
    · exact_mod_cast hxb
    · rw [max_le_iff, le_min_iff, le_min_iff]
      constructor
      · exact ⟨by exact_mod_cast hy1, by exact_mod_cast hy2⟩
      · exact ⟨by exact_mod_cast hy3, by exact_mod_cast hy4⟩
  · rw [detect_none_of_len_ne ap contours h4] at h
    exact Option.noConfusion h

/-- Witness for C9 at a slightly rotated quadrilateral contour. -/
theorem detect_output_ordering_invariant_wit :
    ∃ tlx tly trx trY brx brY blx blY,
      ([(5 : ℚ), 3, 205, 7, 200, 107, 3, 103] : List ℚ) =
        [tlx, tly, trx, trY, brx, brY, blx, blY] ∧
      tlx ≤ trx ∧ blx ≤ brx ∧ max tly trY ≤ min blY brY :=
  detect_output_ordering_invariant id
    [[⟨5, 3⟩, ⟨205, 7⟩, ⟨200, 107⟩, ⟨3, 103⟩]]
    [(5 : ℚ), 3, 205, 7, 200, 107, 3, 103]
    (by norm_num [detectDocumentContour, findBestQuad, selectStep, contourArea,
      shoelace, cross, orderCorners, byY, List.insertionSort, List.orderedInsert])

/-! ## C10: the returned coordinates are integral -/

/-- Claim C10 (status: confirmed).  Every value of the returned 8-value
coordinate list is the cast of an integer: the corner points live on the
integer pixel grid (`cv::Point`) and are only converted to floating point at
the very end (lines 61–65). -/
theorem detect_output_integer_valued (ap : List Point → List Point)
    (contours : List (List Point)) (coords : List ℚ)
    (h : detectDocumentContour ap contours = some coords) :
    ∀ v ∈ coords, ∃ n : ℤ, v = (n : ℚ) := by
  by_cases h4 : (findBestQuad ap contours).length = 4
  · obtain ⟨tl, tr, br, bl, hoc, -, -, -, -, -, -, -⟩ := orderCorners_spec _ h4
    rw [detect_eq_of_order ap contours tl tr br bl h4 hoc] at h
    have hc := Option.some.inj h
    intro v hv
    rw [← hc] at hv
    simp only [List.mem_cons, List.not_mem_nil, or_false] at hv
    rcases hv with rfl | rfl | rfl | rfl | rfl | rfl | rfl | rfl
    · exact ⟨tl.x, rfl⟩
    · exact ⟨tl.y, rfl⟩
    · exact ⟨tr.x, rfl⟩
    · exact ⟨tr.y, rfl⟩
    · exact ⟨br.x, rfl⟩
    · exact ⟨br.y, rfl⟩
    · exact ⟨bl.x, rfl⟩
    · exact ⟨bl.y, rfl⟩
  · rw [detect_none_of_len_ne ap contours h4] at h
    exact Option.noConfusion h

/-- Witness for C10: the value 100 returned for the 100×100 square contour is
the cast of the integer 100. -/
theorem detect_output_integer_valued_wit :
    ∃ n : ℤ, (100 : ℚ) = (n : ℚ) :=
  detect_output_integer_valued id
    [[⟨0, 0⟩, ⟨100, 0⟩, ⟨100, 100⟩, ⟨0, 100⟩]]
    [(0 : ℚ), 0, 100, 0, 100, 100, 0, 100]
    (by norm_num [detectDocumentContour, findBestQuad, selectStep, contourArea,
      shoelace, cross, orderCorners, byY, List.insertionSort, List.orderedInsert])
    100 (by norm_num)

/-! ## C8: adaptive thresholding is a binary classification -/

/-- Claim C8 (status: confirmed).  For every choice of neighborhood weights,
image and pixel, the enhanced pixel is two-level (0 or 255), and it is 255
exactly when the intensity of the pixel strictly exceeds the local threshold,
which is the weighted 15×15 neighborhood mean minus the constant offset 10
(`localMean w pix x y - 10`). -/
theorem enhance_binary_classification (w : Fin 15 → Fin 15 → ℚ)
    (pix : ℤ → ℤ → ℚ) (x y : ℤ) :
    (adaptiveThresholdPix w pix x y = 0 ∨ adaptiveThresholdPix w pix x y = 255) ∧
      (adaptiveThresholdPix w pix x y = 255 ↔
        localMean w pix x y - 10 < pix x y) := by
  unfold adaptiveThresholdPix
  by_cases hc : localMean w pix x y - 10 < pix x y
  · rw [if_pos hc]
    exact ⟨Or.inr rfl, iff_of_true rfl hc⟩
  · rw [if_neg hc]
    refine ⟨Or.inl rfl, iff_of_false ?_ hc⟩
    norm_num

/-! ## Remaining witnesses for the selection loop -/

/-- Witness for C6: a single 50×50 square contour (area 2500 ≥ 1000). -/
theorem detect_selects_large_contour_wit :
    ∃ c ∈ [[(⟨0, 0⟩ : Point), ⟨50, 0⟩, ⟨50, 50⟩, ⟨0, 50⟩]],
      1000 ≤ contourArea c ∧ (id c).length = 4 ∧
      findBestQuad id [[(⟨0, 0⟩ : Point), ⟨50, 0⟩, ⟨50, 50⟩, ⟨0, 50⟩]] = id c :=
  detect_selects_large_contour id
    [[⟨0, 0⟩, ⟨50, 0⟩, ⟨50, 50⟩, ⟨0, 50⟩]]
    [(0 : ℚ), 0, 50, 0, 50, 50, 0, 50]
    (by norm_num [detectDocumentContour, findBestQuad, selectStep, contourArea,
      shoelace, cross, orderCorners, byY, List.insertionSort, List.orderedInsert])

/-- Witness for C7: with a 40×40 and a 60×60 square in the list, the selected
area of the selected polygon dominates the area of the 40×40 candidate. -/
theorem detect_selects_max_area_wit :
    |contourArea (id [(⟨0, 0⟩ : Point), ⟨40, 0⟩, ⟨40, 40⟩, ⟨0, 40⟩])| ≤
      |contourArea (findBestQuad id
        [[(⟨0, 0⟩ : Point), ⟨40, 0⟩, ⟨40, 40⟩, ⟨0, 40⟩],
         [⟨0, 0⟩, ⟨60, 0⟩, ⟨60, 60⟩, ⟨0, 60⟩]])| :=
  detect_selects_max_area id
    [[⟨0, 0⟩, ⟨40, 0⟩, ⟨40, 40⟩, ⟨0, 40⟩],
     [⟨0, 0⟩, ⟨60, 0⟩, ⟨60, 60⟩, ⟨0, 60⟩]]
    [(0 : ℚ), 0, 60, 0, 60, 60, 0, 60]
    (by norm_num [detectDocumentContour, findBestQuad, selectStep, contourArea,
      shoelace, cross, orderCorners, byY, List.insertionSort, List.orderedInsert])
    [⟨0, 0⟩, ⟨40, 0⟩, ⟨40, 40⟩, ⟨0, 40⟩]
    (by simp)
    (by norm_num [contourArea, shoelace, cross])
    rfl

end EdgeProcessor
